import Mathlib

/-!
Verification of the RAG core of the arelis backend (`app/rag_store.py` and its
call site in `app/main.py`), as a shallow embedding in Lean 4.

Python strings are modelled by `String`, Python lists by `List`, Python floats
by `ℚ` (exact arithmetic; the one square root the code takes is expressed with
`Real.sqrt` inside theorem statements), `None`-able values by `Option`, and
exceptions by `Except String`.  The Chroma vector store is modelled as a list
of entries (identifier, text, metadata) together with the operations the code
uses: add-with-ids (upsert by identifier), owner-filtered similarity search,
and metadata-scoped delete.  Ranking details of the similarity search are
abstracted into an arbitrary distance function parameter `dist`; every theorem
about retrieval is proved for all `dist`, hence in particular for the real
embedding-based distance.
-/

namespace RagStore

/-! ## Tokenization: rag_store._tokenize -/

/-- Word characters of the Python regex `[a-zA-Z0-9]+` (ASCII alphanumerics). -/
def isWordChar (c : Char) : Bool :=
  c.isAlphanum

/-- Python's `str.lower`, modelled character by character (the texts the claims
touch are ASCII, where Python's and Lean's per-character lowercasing agree). -/
def lowerStr (t : String) : String :=
  String.mk (t.toList.map Char.toLower)

/-- Python's `str.strip`: drop leading and trailing whitespace. -/
def pyStrip (t : String) : String :=
  String.mk ((((t.toList.dropWhile Char.isWhitespace).reverse).dropWhile Char.isWhitespace).reverse)

/-- Maximal runs of word characters in a character list; the accumulator holds
the current run, reversed. -/
def tokenRuns : List Char → List Char → List (List Char)
  | [], acc => if acc.isEmpty then [] else [acc.reverse]
  | c :: cs, acc =>
    if isWordChar c then tokenRuns cs (c :: acc)
    else if acc.isEmpty then tokenRuns cs []
    else acc.reverse :: tokenRuns cs []

/-- Embeds `rag_store._tokenize`: lowercase the text, then extract the maximal
runs of ASCII alphanumerics (`re.findall(r"[a-zA-Z0-9]+", text.lower())`). -/
def pyTokenize (text : String) : List String :=
  (tokenRuns (lowerStr text).toList []).map (fun cs => String.mk cs)

/-! ## Keyword extraction: rag_store._keywords -/

/-- Embeds the stop-word set `rag_store._STOP`. -/
def stopWords : List String :=
  ["the", "and", "for", "with", "that", "this", "from", "are", "was", "were",
   "you", "your", "into", "about", "can", "will", "what", "how", "why", "when",
   "where", "which", "their", "they", "them", "not", "but", "also"]

/-- Embeds `rag_store._keywords`: keep tokens of length at least 4 that are not
stop words, in order of appearance, capped at the first 12. -/
def extractKeywords (query : String) : List String :=
  ((pyTokenize query).filter (fun t => decide (4 ≤ t.length ∧ t ∉ stopWords))).take 12

/-! ## Retrieval result record: rag_store.RagChunk -/

/-- Embeds the dataclass `rag_store.RagChunk`. -/
structure RagChunk where
  text : String
  doc_id : String
  filename : String
  page : Option Int := none
  score : Option ℚ := none
deriving DecidableEq, Repr

/-! ## Relevance gate: rag_store.should_use_context -/

/-- Python `kw in t`: the keyword occurs as a contiguous substring of `t`. -/
def strContainsSub (t kw : String) : Bool :=
  decide (kw.toList <:+: t.toList)

/-- Embeds the per-chunk overlap count of `should_use_context`:
`sum(1 for kw in kws if kw in t)` where `t` is the chunk text lowercased
(the keyword list is counted with multiplicity, it is not deduplicated). -/
def overlapCount (kws : List String) (c : RagChunk) : Nat :=
  kws.countP (fun kw => strContainsSub (lowerStr c.text) kw)

/-- Embeds `rag_store.should_use_context`.  `(c.text or "")` is the identity
in the model, since chunk texts are always strings here. -/
def should_use_context (query : String) (chunks : List RagChunk) : Bool :=
  if chunks.isEmpty then false
  else
    let kws := extractKeywords query
    if kws.isEmpty then false
    else
      let best := (chunks.take 4).foldl (fun b c => max b (overlapCount kws c)) 0
      decide (2 ≤ best)

/-- Gate decision as the specification sentence words it: true iff at least one
of the first 4 chunks shares at least two DISTINCT query keywords with the
question (the keyword list deduplicated before counting).  Stated from the
spec's words, to be compared with `should_use_context`. -/
def gateSpecDistinct (query : String) (chunks : List RagChunk) : Prop :=
  chunks ≠ [] ∧ extractKeywords query ≠ [] ∧
    2 ≤ (chunks.take 4).foldl
      (fun b c => max b (overlapCount (extractKeywords query).dedup c)) 0

instance (query : String) (chunks : List RagChunk) :
    Decidable (gateSpecDistinct query chunks) := by
  unfold gateSpecDistinct
  infer_instance

/-! ## Embedding: rag_store.LightHashEmbeddings._embed

The source buckets each token with Python's builtin `hash`, so the embedding is
parameterized here by the string-hash function `h` in use.  CPython salts the
hash of every nonempty string with a per-process random key (PYTHONHASHSEED,
which this repository never pins), so the hash function actually in effect is a
member of a seed-indexed family; `pyHashModel` below models that family. -/

/-- Bucket of a token: `hash(t) % self.dim`.  Python's `%` on a positive
modulus is the euclidean remainder, as is Lean's `%` on `Int`. -/
def bucket (h : String → Int) (dim : Nat) (t : String) : Nat :=
  ((h t) % (dim : Int)).toNat

/-- One accumulation step of `_embed`: `vec[i] += 1.0` at the token's bucket.
The accumulator only ever holds the exact token counts, so the float vector is
modelled with naturals; normalization is stated over `ℝ` in the theorems. -/
def bumpBucket (h : String → Int) (dim : Nat) (v : List ℕ) (t : String) : List ℕ :=
  v.set (bucket h dim t) (v.getD (bucket h dim t) 0 + 1)

/-- Embeds the accumulation loop of `LightHashEmbeddings._embed`: start from
the all-zero vector of length `dim` and bump one bucket per token. -/
def rawVec (h : String → Int) (dim : Nat) (text : String) : List ℕ :=
  (pyTokenize text).foldl (bumpBucket h dim) (List.replicate dim (0 : ℕ))

/-- Sum of squares of the vector, `sum(v * v for v in vec)`; the code's branch
condition `norm > 0` (with `norm = sumSq ** 0.5`) holds iff `0 < sumSq`. -/
def sumSq (v : List ℕ) : ℕ :=
  (v.map (fun x => x * x)).sum

/-- Modelled from the runtime: CPython computes `hash` of a string with a
keyed hash (SipHash) whose key is derived from the per-process random
PYTHONHASHSEED salt; the empty string hashes to 0 regardless of the seed.  The
model keeps the shape of CPython's historical salted string hash (multiplier
1000003, seed folded in as the initial accumulator, reduced modulo a Mersenne
prime) — what matters for the claims is that the seed genuinely shifts the
hash of nonempty strings, exactly as the real salted hash does. -/
def pyHashModel (seed : Nat) (t : String) : Int :=
  if t = "" then 0
  else
    Int.ofNat
      ((t.toList.foldl (fun a c => (a * 1000003 + c.toNat) % 2305843009213693951) seed)
        % 2305843009213693951)

/-! ## Vector store model (Chroma as used by rag_store)

An index entry is (identifier, text, metadata); metadata fields are `Option`s
because a stored metadata dictionary need not contain every key (claim C10).
`langchain`'s `Chroma.add_documents(docs, ids=...)` upserts by identifier;
`similarity_search_with_score(query, k, filter={"user_id": u})` filters
strictly by owner, ranks the remaining entries by distance and returns at most
`k` of them with their scores; `_collection.delete(where={...})` first runs
chromadb's `validate_where` on the clause and raises for a dictionary with
more than one top-level key, only then removing the matching entries. -/

/-- Metadata of a stored entry; absent dictionary keys are `none`. -/
structure EntryMeta where
  user_id : Option String := none
  doc_id : Option String := none
  filename : Option String := none
  page : Option Int := none
deriving DecidableEq, Repr

/-- One stored entry of the collection. -/
structure Entry where
  id : String
  text : String
  meta : EntryMeta
deriving DecidableEq, Repr

/-- The collection state. -/
abbrev Store := List Entry

/-- Upsert of a single document under its identifier: overwrite every entry
carrying that identifier if one exists, else append. -/
def upsertOne (s : Store) (e : Entry) : Store :=
  if s.any (fun x => x.id == e.id) then s.map (fun x => if x.id = e.id then e else x)
  else s ++ [e]

/-- Embeds `add_documents(docs, ids=ids)`: upsert the batch in order. -/
def upsertBatch (s : Store) (b : List Entry) : Store :=
  b.foldl upsertOne s

/-- Owner filter of the search: entries whose metadata has `user_id` present
and equal to the requested owner (`filter={"user_id": user_id}`). -/
def ownerFilter (s : Store) (user_id : String) : List Entry :=
  s.filter (fun e => decide (e.meta.user_id = some user_id))

/-- Ranked insertion into an already ranked list (smaller distance first). -/
def insertRanked (d : Entry → ℚ) (e : Entry) : List Entry → List Entry
  | [] => [e]
  | x :: xs => if d e < d x then e :: x :: xs else x :: insertRanked d e xs

/-- Ranking of the candidate entries by distance. -/
def rankBy (d : Entry → ℚ) : List Entry → List Entry
  | [] => []
  | x :: xs => insertRanked d x (rankBy d xs)

/-- Embeds `similarity_search_with_score(query, k=k, filter={"user_id": u})`:
filter by owner, rank by the distance function, return at most `k` entries
with their scores.  `dist` abstracts the composite of query embedding and the
collection's distance metric. -/
def similarity_search_with_score (dist : String → Entry → ℚ) (s : Store)
    (query : String) (k : Nat) (user_id : String) : List (Entry × ℚ) :=
  ((rankBy (dist query) (ownerFilter s user_id)).take k).map (fun e => (e, dist query e))

/-- Conversion of one search result to a `RagChunk`, as in the loop body of
`retrieve_chunks`: missing `doc_id`/`filename` keys default to `""`
(`doc.metadata.get("doc_id", "")`), a missing `page` stays `None`. -/
def toChunk (r : Entry × ℚ) : RagChunk :=
  { text := r.1.text
    doc_id := r.1.meta.doc_id.getD ""
    filename := r.1.meta.filename.getD ""
    page := r.1.meta.page
    score := some r.2 }

/-- Embeds `rag_store.retrieve_chunks`: one owner-filtered similarity search,
mapped to `RagChunk`s.  There is no empty-query branch in the source. -/
def retrieve_chunks (dist : String → Entry → ℚ) (s : Store)
    (user_id query : String) (k : Nat) : List RagChunk :=
  (similarity_search_with_score dist s query k user_id).map toChunk

/-- Retrieval together with the number of index searches the call performs:
`retrieve_chunks` unconditionally performs exactly one
`similarity_search_with_score`, whatever the query is. -/
def retrieve_trace (dist : String → Entry → ℚ) (s : Store)
    (user_id query : String) (k : Nat) : List RagChunk × Nat :=
  (retrieve_chunks dist s user_id query k, 1)

/-- Embeds the call site `app/main.py:153`,
`chunks = retrieve_chunks(user_id=..., query=query, k=6) if query else []`:
the empty-query short circuit lives in the caller, which performs no index
search at all when the query is empty. -/
def chat_kb_retrieve (dist : String → Entry → ℚ) (s : Store)
    (user_id query : String) : List RagChunk × Nat :=
  if query = "" then ([], 0) else retrieve_trace dist s user_id query 6

/-! ## Ingestion: rag_store.index_pages

The page texts are chunked by `chunk_text`, a fixed configuration of
langchain's `RecursiveCharacterTextSplitter`; that third-party splitter is
abstracted into the function parameter `chunkF`.  With its configured
`strip_whitespace=True` default and final separator `""`, every chunk the real
splitter emits is already stripped and nonempty; theorems that need this state
it as an explicit hypothesis on `chunkF`. -/

/-- Identifier of a surviving chunk, `f"{user_id}:{doc_id}:{page_num}:{ci}"`. -/
def mkChunkId (user_id doc_id : String) (page_num : Int) (ci : Nat) : String :=
  user_id ++ ":" ++ doc_id ++ ":" ++ toString page_num ++ ":" ++ toString ci

/-- Embeds the inner loop of `index_pages` for one page: enumerate the chunks
of the page, strip each, skip the ones that are empty after stripping, and
build the entry (identifier, stripped text, full metadata) for the rest.  The
enumeration index `ci` is taken over the raw chunk list, before the skip, as
in the source (`for ci, chunk in enumerate(chunk_text(page_text))`). -/
def pageEntryOf (user_id doc_id filename : String) (page_num : Int)
    (pr : Nat × String) : Option Entry :=
  if pyStrip pr.2 = "" then none
  else some
    { id := mkChunkId user_id doc_id page_num pr.1
      text := pyStrip pr.2
      meta :=
        { user_id := some user_id
          doc_id := some doc_id
          filename := some filename
          page := some page_num } }

/-- Entries one page contributes: the loop body applied to the enumerated
chunk list of the page. -/
def pageEntries (user_id doc_id filename : String) (page_num : Int)
    (chunks : List String) : List Entry :=
  chunks.enum.filterMap (pageEntryOf user_id doc_id filename page_num)

/-- The whole batch one `index_pages` call builds (`docs` paired with `ids`). -/
def ingestDocs (chunkF : String → List String) (user_id doc_id filename : String)
    (pages : List (Int × String)) : List Entry :=
  pages.flatMap (fun pg => pageEntries user_id doc_id filename pg.1 (chunkF pg.2))

/-- Embeds `rag_store.index_pages` up to the persistence flush: build the
batch, add it to the store when nonempty, return the new store and
`len(docs)`. -/
def index_pages (chunkF : String → List String) (s : Store)
    (user_id doc_id filename : String) (pages : List (Int × String)) : Store × Nat :=
  let docs := ingestDocs chunkF user_id doc_id filename pages
  (if docs.isEmpty then s else upsertBatch s docs, docs.length)

/-- Embeds `rag_store.index_pages` including the guarded persistence flush:
after a nonempty batch is added, `vectorstore.persist()` runs under
`try: ... except Exception: pass`, so whatever the flush's outcome
(`persistResult`), the call returns normally.  The `Except` layer is the
shallow embedding of Python exception propagation. -/
def index_pages_run (chunkF : String → List String) (s : Store)
    (user_id doc_id filename : String) (pages : List (Int × String))
    (persistResult : Except String Unit) : Except String (Store × Nat) :=
  let docs := ingestDocs chunkF user_id doc_id filename pages
  if docs.isEmpty then Except.ok (s, docs.length)
  else
    let s' := upsertBatch s docs
    match persistResult with
    | Except.ok _ => Except.ok (s', docs.length)
    | Except.error _ => Except.ok (s', docs.length)

/-! ## Deletion: rag_store.delete_doc_index -/

/-- Keys of the where dictionary `rag_store.delete_doc_index` builds:
`where={"user_id": user_id, "doc_id": doc_id}` has the two top-level keys. -/
def deleteWhereKeys : List String :=
  ["user_id", "doc_id"]

/-- Modelled from the runtime: chromadb's `Collection.delete` runs
`validate_where` on the clause before touching the collection, and that
validation accepts a where dictionary only when it has exactly one top-level
key (one metadata key, or a `$and`/`$or` operator wrapping the rest); for any
other dictionary it raises `ValueError("Expected where to have exactly one
operator, got ...")`. -/
def validate_where (keys : List String) : Except String Unit :=
  if keys.length = 1 then Except.ok ()
  else Except.error "Expected where to have exactly one operator"

/-- Conjunctive removal that a validated owner-and-document where clause (a
`$and` of the two single-key clauses) would denote: keep exactly the entries
not matching both keys. -/
def whereDelete (s : Store) (user_id doc_id : String) : Store :=
  s.filter (fun e =>
    decide (¬ (e.meta.user_id = some user_id ∧ e.meta.doc_id = some doc_id)))

/-- Embeds `rag_store.delete_doc_index`:
`_collection.delete(where={"user_id": user_id, "doc_id": doc_id})` hands
chromadb a two-key where dictionary, which `validate_where` rejects before any
entry is touched; the resulting ValueError is not guarded — only the
`persist()` after the delete sits under `try/except` — so it propagates to
the caller and the store is left unchanged.  The ok branch (what a `$and`
wrapper would reach) is unreachable for this clause. -/
def delete_doc_index (s : Store) (user_id doc_id : String) : Except String Store :=
  match validate_where deleteWhereKeys with
  | Except.ok _ => Except.ok (whereDelete s user_id doc_id)
  | Except.error msg => Except.error msg

/-! ## Concrete data used by the witnesses -/

/-- Degenerate distance function used by concrete witnesses; the retrieval
theorems hold for every distance function, this one included. -/
def distZero : String → Entry → ℚ :=
  fun _ _ => 0

/-- Degenerate chunker used by concrete witnesses: one chunk per page. -/
def chunkWhole : String → List String :=
  fun t => [t]

/-- Sample stored entry with full metadata, owner u1, document d1. -/
def sampleEntry : Entry :=
  { id := "u1:d1:1:0"
    text := "hello world"
    meta := { user_id := some "u1", doc_id := some "d1", filename := some "f.pdf", page := some 1 } }

/-- Second sample entry of the same owner, document d2. -/
def sampleEntryD2 : Entry :=
  { id := "u1:d2:1:0"
    text := "other text"
    meta := { user_id := some "u1", doc_id := some "d2", filename := some "g.pdf", page := some 1 } }

/-- Sample stored entry whose metadata lacks doc_id, filename and page. -/
def bareEntry : Entry :=
  { id := "x0"
    text := "bare text"
    meta := { user_id := some "u2" } }

/-! ## Helper lemmas -/

/-- Characterization of the running maximum of the gate loop. -/
lemma le_foldl_max_iff {α : Type} (f : α → ℕ) (n : ℕ) :
    ∀ (l : List α) (a : ℕ),
      n ≤ l.foldl (fun b c => max b (f c)) a ↔ n ≤ a ∨ ∃ c ∈ l, n ≤ f c := by
  intro l
  induction l with
  | nil => intro a; simp
  | cons x xs ih =>
    intro a
    rw [List.foldl_cons, ih (max a (f x))]
    simp only [le_max_iff, List.mem_cons]
    constructor
    · rintro ((h | h) | ⟨c, hc, h⟩)
      · exact Or.inl h
      · exact Or.inr ⟨x, Or.inl rfl, h⟩
      · exact Or.inr ⟨c, Or.inr hc, h⟩
    · rintro (h | ⟨c, (rfl | hc), h⟩)
      · exact Or.inl (Or.inl h)
      · exact Or.inl (Or.inr h)
      · exact Or.inr ⟨c, hc, h⟩

/-- Ranked insertion is a permutation of consing. -/
lemma insertRanked_perm (d : Entry → ℚ) (e : Entry) :
    ∀ l : List Entry, (insertRanked d e l).Perm (e :: l) := by
  intro l
  induction l with
  | nil => exact List.Perm.refl _
  | cons x xs ih =>
    unfold insertRanked
    by_cases h : d e < d x
    · simp only [if_pos h]; exact List.Perm.refl _
    · simp only [if_neg h]
      exact (ih.cons x).trans (List.Perm.swap e x xs)

/-- Ranking permutes the candidate list. -/
lemma rankBy_perm (d : Entry → ℚ) :
    ∀ l : List Entry, (rankBy d l).Perm l := by
  intro l
  induction l with
  | nil => exact List.Perm.refl _
  | cons x xs ih =>
    unfold rankBy
    exact (insertRanked_perm d x (rankBy d xs)).trans (ih.cons x)

/-- Origin of a search result: it is a stored entry of the requested owner,
scored by the distance function. -/
lemma search_origin (dist : String → Entry → ℚ) (s : Store) (q : String) (k : Nat)
    (u : String) (r : Entry × ℚ) (hr : r ∈ similarity_search_with_score dist s q k u) :
    r.1 ∈ s ∧ r.1.meta.user_id = some u ∧ r.2 = dist q r.1 := by
  unfold similarity_search_with_score at hr
  obtain ⟨e, he, rfl⟩ := List.mem_map.mp hr
  have h1 : e ∈ rankBy (dist q) (ownerFilter s u) := List.take_subset k _ he
  have h2 : e ∈ ownerFilter s u := (rankBy_perm (dist q) _).mem_iff.mp h1
  have h3 := List.mem_filter.mp h2
  exact ⟨h3.1, of_decide_eq_true h3.2, rfl⟩

/-- Origin of a retrieved chunk: the image of a stored entry of the requested
owner under `toChunk`. -/
lemma retrieve_origin (dist : String → Entry → ℚ) (s : Store) (u q : String) (k : Nat)
    (c : RagChunk) (hc : c ∈ retrieve_chunks dist s u q k) :
    ∃ e, e ∈ s ∧ e.meta.user_id = some u ∧ c = toChunk (e, dist q e) := by
  unfold retrieve_chunks at hc
  obtain ⟨r, hr, rfl⟩ := List.mem_map.mp hc
  obtain ⟨h1, h2, h3⟩ := search_origin dist s q k u r hr
  refine ⟨r.1, h1, h2, ?_⟩
  cases r with
  | mk e sc => simp only at h3; rw [h3]

/-! ## Claim C1: tenant isolation of retrieval -/

/-- C1: every chunk returned by `retrieve_chunks(user_id, query, k)` comes
from a stored entry whose metadata owner equals `user_id` — for every store
state, distance function, owner, query and k, so no code path returns another
owner's chunk. -/
theorem retrieval_tenant_isolation (dist : String → Entry → ℚ) (s : Store)
    (u q : String) (k : Nat) (c : RagChunk) (hc : c ∈ retrieve_chunks dist s u q k) :
    ∃ e, e ∈ s ∧ e.meta.user_id = some u ∧ c = toChunk (e, dist q e) :=
  retrieve_origin dist s u q k c hc

/-- Witness for C1 at a concrete store, owner and query. -/
theorem retrieval_tenant_isolation_witness :
    ∃ e, e ∈ [sampleEntry] ∧ e.meta.user_id = some "u1" ∧
      toChunk (sampleEntry, 0) = toChunk (e, distZero "hello" e) :=
  retrieval_tenant_isolation distZero [sampleEntry] "u1" "hello" 6
    (toChunk (sampleEntry, 0)) (by decide)

/-! ## Claim C2: relevance gate decision rule -/

/-- C2 counterexample: on the query "alpha alpha" (whose keyword list is
["alpha", "alpha"], not deduplicated) and a single chunk containing "alpha",
the gate returns true although no chunk shares two DISTINCT keywords with the
query, refuting the claim's "at least two distinct query keywords" reading. -/
theorem gate_distinct_counterexample :
    should_use_context "alpha alpha" [{ text := "alpha", doc_id := "", filename := "" }] = true ∧
    ¬ gateSpecDistinct "alpha alpha" [{ text := "alpha", doc_id := "", filename := "" }] := by
  constructor
  · decide
  · decide

/-- C2 amended: `should_use_context(query, chunks)` returns true iff one of
the first 4 chunks contains, as substrings of its lowercased text, at least 2
entries of the query's keyword list — counted with multiplicity over the
first-12 keyword list, not over distinct keywords.  (The empty-chunks and
empty-keywords early returns are subsumed: an overlap of 2 forces both lists
nonempty.) -/
theorem gate_true_iff (query : String) (chunks : List RagChunk) :
    should_use_context query chunks = true ↔
      ∃ c ∈ chunks.take 4, 2 ≤ overlapCount (extractKeywords query) c := by
  unfold should_use_context
  by_cases h1 : chunks.isEmpty
  · rw [List.isEmpty_iff.mp h1]
    simp
  · simp only [h1, Bool.false_eq_true, if_false]
    by_cases h2 : (extractKeywords query).isEmpty
    · rw [if_pos h2, List.isEmpty_iff.mp h2]
      simp [overlapCount]
    · rw [if_neg h2, decide_eq_true_iff, le_foldl_max_iff (overlapCount (extractKeywords query)) 2]
      simp

/-- Witness for C2 at the specification's own scenario: the termination notice
period query against a chunk that contains all three keywords. -/
theorem gate_true_iff_witness :
    should_use_context "What is the termination notice period?"
      [{ text := "...the termination notice period is 30 days...", doc_id := "", filename := "" }]
      = true :=
  (gate_true_iff "What is the termination notice period?"
      [{ text := "...the termination notice period is 30 days...", doc_id := "", filename := "" }]).mpr
    (by decide)

/-! ## Claim C3: empty-query short-circuit -/

/-- C3 counterexample: with one indexed entry for the owner, a retrieval with
the empty query still performs its one index search and returns a nonempty
chunk list — `retrieve_chunks` has no empty-query branch. -/
theorem empty_query_counterexample :
    (retrieve_trace distZero [sampleEntry] "u1" "" 6).1 ≠ [] ∧
    (retrieve_trace distZero [sampleEntry] "u1" "" 6).2 = 1 := by
  constructor
  · decide
  · rfl

/-- C3 amended: `retrieve_chunks` performs exactly one owner-filtered index
search for every query, the empty query included, and returns that search's
results; the empty-query short-circuit lives in the caller (`app/main.py:153`),
which skips `retrieve_chunks` entirely and uses no index search when the query
is empty. -/
theorem empty_query_guard_in_caller (dist : String → Entry → ℚ) (s : Store)
    (u q : String) (k : Nat) :
    retrieve_trace dist s u q k
        = ((similarity_search_with_score dist s q k u).map toChunk, 1) ∧
    chat_kb_retrieve dist s u "" = ([], 0) :=
  ⟨rfl, rfl⟩

/-! ## Claim C4: cross-process embedding determinism -/

/-- C4, evaluating the code at the failing input: under two different
per-process hash seeds the embedding of the very same text "hello" lands in
two different buckets (241 and 74 of 384), so the two processes produce
different vectors — the salted builtin `hash` is not stable across processes,
against the claim. -/
theorem embed_not_cross_process_stable :
    bucket (pyHashModel 0) 384 "hello" ≠ bucket (pyHashModel 1) 384 "hello" ∧
    rawVec (pyHashModel 0) 384 "hello" ≠ rawVec (pyHashModel 1) 384 "hello" := by
  constructor
  · decide
  · decide

/-! ## Claim C5: embedding normalization -/

/-- Bucket indices are always within the vector when the dimension is
positive. -/
lemma bucket_lt (h : String → Int) (dim : Nat) (t : String) (hdim : 0 < dim) :
    bucket h dim t < dim := by
  unfold bucket
  have hd : (dim : Int) ≠ 0 := by exact_mod_cast hdim.ne'
  have h1 : 0 ≤ (h t) % (dim : Int) := Int.emod_nonneg _ hd
  have h2 : (h t) % (dim : Int) < (dim : Int) := Int.emod_lt_of_pos _ (by exact_mod_cast hdim)
  omega

/-- Incrementing an in-range cell adds one to the list's sum. -/
lemma sum_set_getD (v : List ℕ) (i : Nat) (hi : i < v.length) :
    (v.set i (v.getD i 0 + 1)).sum = v.sum + 1 := by
  induction v generalizing i with
  | nil => simp at hi
  | cons x t ih =>
    cases i with
    | zero =>
      rw [List.getD_cons_zero, List.set_cons_zero, List.sum_cons, List.sum_cons]
      omega
    | succ j =>
      have hj : j < t.length := by simpa using hi
      rw [List.getD_cons_succ, List.set_cons_succ, List.sum_cons, List.sum_cons, ih j hj]
      omega

/-- Fold invariant of the embedding accumulation: the length is preserved and
the entries sum to the number of tokens folded in. -/
lemma rawFold_inv (h : String → Int) (dim : Nat) (hdim : 0 < dim) :
    ∀ (l : List String) (v : List ℕ), v.length = dim →
      (l.foldl (bumpBucket h dim) v).length = dim ∧
      (l.foldl (bumpBucket h dim) v).sum = v.sum + l.length := by
  intro l
  induction l with
  | nil => intro v hv; simpa using hv
  | cons t ts ih =>
    intro v hv
    have hb : bucket h dim t < v.length := by rw [hv]; exact bucket_lt h dim t hdim
    have hlen : (bumpBucket h dim v t).length = dim := by
      simp [bumpBucket, List.length_set, hv]
    obtain ⟨h1, h2⟩ := ih (bumpBucket h dim v t) hlen
    have h3 : (bumpBucket h dim v t).sum = v.sum + 1 := sum_set_getD v _ hb
    refine ⟨h1, ?_⟩
    rw [List.foldl_cons, h2, h3]
    simp
    omega

/-- A vector of naturals with positive sum has positive sum of squares. -/
lemma sumSq_pos_of_sum_pos (v : List ℕ) (hv : 0 < v.sum) : 0 < sumSq v := by
  induction v with
  | nil => simp at hv
  | cons x t ih =>
    rcases Nat.eq_zero_or_pos x with rfl | hx
    · have ht : 0 < t.sum := by simpa using hv
      have := ih ht
      simp [sumSq, List.sum_cons] at this ⊢
      exact this
    · have hxx : 0 < x * x := Nat.mul_pos hx hx
      simp only [sumSq, List.map_cons, List.sum_cons]
      exact Nat.lt_of_lt_of_le hxx (Nat.le_add_right _ _)

/-- Sum of the squared entries of a vector of naturals divided by a common
denominator. -/
lemma sum_map_div_sq (n : ℝ) : ∀ v : List ℕ,
    (v.map (fun x : ℕ => ((x : ℝ) / n) ^ 2)).sum = (sumSq v : ℝ) / n ^ 2 := by
  intro v
  induction v with
  | nil => simp [sumSq]
  | cons x t ih =>
    simp only [List.map_cons, List.sum_cons, ih, sumSq]
    rw [div_pow, div_add_div_same]
    norm_num [sumSq]
    ring_nf

/-- C5: for every hash function, positive dimension and text, the raw vector
has length exactly dim; when the text tokenizes to nothing the vector is all
zeros and the normalization branch is not taken (no division happens); when
there is at least one token, the vector normalized by the Euclidean norm
`sqrt (sumSq)` has squared norm exactly 1 (ideal-arithmetic reading of the
"within floating tolerance" clause). -/
theorem embed_normalized (h : String → Int) (dim : Nat) (text : String) (hdim : 0 < dim) :
    (rawVec h dim text).length = dim ∧
    (pyTokenize text = [] →
      rawVec h dim text = List.replicate dim 0 ∧ ¬ 0 < sumSq (rawVec h dim text)) ∧
    (pyTokenize text ≠ [] →
      ((rawVec h dim text).map
        (fun x : ℕ => ((x : ℝ) / Real.sqrt (sumSq (rawVec h dim text) : ℝ)) ^ 2)).sum = 1) := by
  obtain ⟨hlen, hsum⟩ :=
    rawFold_inv h dim hdim (pyTokenize text) (List.replicate dim 0) (by simp)
  refine ⟨hlen, ?_, ?_⟩
  · intro h0
    have hz : rawVec h dim text = List.replicate dim 0 := by
      unfold rawVec
      rw [h0]
      rfl
    refine ⟨hz, ?_⟩
    rw [hz]
    simp [sumSq]
  · intro hne
    have hsum' : (rawVec h dim text).sum = 0 + (pyTokenize text).length := by
      simpa [rawVec] using hsum
    have hlen' : 0 < (pyTokenize text).length := List.length_pos.mpr hne
    have hpos : 0 < (rawVec h dim text).sum := by omega
    have hs : 0 < sumSq (rawVec h dim text) := sumSq_pos_of_sum_pos _ hpos
    have hsR : (0 : ℝ) < (sumSq (rawVec h dim text) : ℝ) := by exact_mod_cast hs
    rw [sum_map_div_sq, Real.sq_sqrt hsR.le]
    exact div_self hsR.ne'

/-- Witness for C5 at the concrete text "hello" with a concrete hash. -/
theorem embed_normalized_witness :
    ((rawVec (fun _ => 0) 384 "hello").map
      (fun x : ℕ => ((x : ℝ) / Real.sqrt (sumSq (rawVec (fun _ => 0) 384 "hello") : ℝ)) ^ 2)).sum = 1 :=
  (embed_normalized (fun _ => 0) 384 "hello" (by decide)).2.2 (by decide)

/-! ## Claim C6: ingestion identifier scheme -/

/-- Position bounds and membership for enumerated lists. -/
lemma mem_enumFrom_bounds {α : Type} :
    ∀ (l : List α) (n : Nat) (pr : Nat × α), pr ∈ l.enumFrom n →
      n ≤ pr.1 ∧ pr.1 < n + l.length ∧ pr.2 ∈ l := by
  intro l
  induction l with
  | nil => intro n pr h; simp [List.enumFrom] at h
  | cons x xs ih =>
    intro n pr h
    rw [List.enumFrom_cons] at h
    rcases List.mem_cons.mp h with rfl | h
    · simp
    · obtain ⟨h1, h2, h3⟩ := ih (n + 1) pr h
      refine ⟨by omega, by simp; omega, List.mem_cons_of_mem x h3⟩

/-- Texts of the surviving entries of a page: the stripped chunks, the empty
ones discarded, in order. -/
lemma pageEntries_texts (u d f : String) (p : Int) :
    ∀ (chunks : List String) (n : Nat),
      ((chunks.enumFrom n).filterMap (pageEntryOf u d f p)).map (fun e => e.text)
        = (chunks.map pyStrip).filter (fun t => decide (t ≠ "")) := by
  intro chunks
  induction chunks with
  | nil => intro n; simp [List.enumFrom]
  | cons c cs ih =>
    intro n
    rw [List.enumFrom_cons, List.filterMap_cons, List.map_cons, List.filter_cons]
    by_cases hc : pyStrip c = ""
    · simp only [pageEntryOf, hc, if_pos rfl, decide_not]
      simp [ih (n + 1)]
    · simp only [pageEntryOf, if_neg hc, decide_not]
      simp only [List.map_cons]
      rw [ih (n + 1)]
      simp [hc]

/-- Identifiers of the surviving entries of a page when no chunk strips to
empty: consecutive positions from the enumeration start. -/
lemma pageEntries_ids (u d f : String) (p : Int) :
    ∀ (chunks : List String) (n : Nat), (∀ c ∈ chunks, pyStrip c ≠ "") →
      ((chunks.enumFrom n).filterMap (pageEntryOf u d f p)).map (fun e => e.id)
        = (List.range' n chunks.length).map (mkChunkId u d p) := by
  intro chunks
  induction chunks with
  | nil => intro n _; simp [List.enumFrom]
  | cons c cs ih =>
    intro n hno
    have hc : pyStrip c ≠ "" := hno c (List.mem_cons_self c cs)
    rw [List.enumFrom_cons, List.filterMap_cons]
    simp only [pageEntryOf, if_neg hc]
    rw [List.length_cons, List.range'_succ, List.map_cons, List.map_cons]
    rw [ih (n + 1) (fun x hx => hno x (List.mem_cons_of_mem c hx))]

/-- C6: for every page, (a) the entries actually indexed are exactly the
chunks that are nonempty after stripping, in order; (b) every surviving entry
carries the identifier `owner:document:page:chunk-index` for an in-range index
and the full owner/document/filename/page metadata; (c) when the chunker
never emits a whitespace-only chunk — true of the configured langchain
splitter — the surviving chunk indices are consecutive from 0 on the page. -/
theorem ingestion_identifier_scheme (u d f : String) (p : Int) (chunks : List String) :
    ((pageEntries u d f p chunks).map (fun e => e.text)
        = (chunks.map pyStrip).filter (fun t => decide (t ≠ ""))) ∧
    (∀ e ∈ pageEntries u d f p chunks, ∃ ci, ci < chunks.length ∧
        e.id = mkChunkId u d p ci ∧
        e.meta = { user_id := some u, doc_id := some d, filename := some f, page := some p }) ∧
    ((∀ c ∈ chunks, pyStrip c ≠ "") →
        (pageEntries u d f p chunks).map (fun e => e.id)
          = (List.range chunks.length).map (mkChunkId u d p)) := by
  refine ⟨pageEntries_texts u d f p chunks 0, ?_, ?_⟩
  · intro e he
    obtain ⟨pr, hpr, hsome⟩ := List.mem_filterMap.mp he
    obtain ⟨_, hlt, _⟩ := mem_enumFrom_bounds chunks 0 pr hpr
    unfold pageEntryOf at hsome
    by_cases hc : pyStrip pr.2 = ""
    · rw [if_pos hc] at hsome; exact absurd hsome (by simp)
    · rw [if_neg hc] at hsome
      refine ⟨pr.1, by omega, ?_, ?_⟩
      · rw [← Option.some_inj.mp hsome]
      · rw [← Option.some_inj.mp hsome]
  · intro hno
    rw [List.range_eq_range']
    exact pageEntries_ids u d f p chunks 0 hno

/-- Witness for C6 on a concrete page with two chunks, one needing a strip. -/
theorem ingestion_identifier_scheme_witness :
    (pageEntries "u1" "d1" "f.pdf" 1 ["hello", " world "]).map (fun e => e.id)
      = (List.range (["hello", " world "] : List String).length).map (mkChunkId "u1" "d1" 1) :=
  (ingestion_identifier_scheme "u1" "d1" "f.pdf" 1 ["hello", " world "]).2.2 (by decide)

/-! ## Claim C7: ingestion idempotence -/

/-- Identifier multiset of an upsert: unchanged when the identifier is already
present, appended otherwise. -/
lemma upsertOne_ids (s : Store) (e : Entry) :
    (upsertOne s e).map (fun x => x.id)
      = if e.id ∈ s.map (fun x => x.id) then s.map (fun x => x.id)
        else s.map (fun x => x.id) ++ [e.id] := by
  unfold upsertOne
  by_cases hmem : e.id ∈ s.map (fun x => x.id)
  · obtain ⟨x, hx, hfx⟩ := List.mem_map.mp hmem
    have hany : s.any (fun x => x.id == e.id) = true :=
      List.any_eq_true.mpr ⟨x, hx, by rw [hfx]; exact beq_self_eq_true e.id⟩
    rw [if_pos hany, if_pos hmem, List.map_map]
    apply List.map_congr_left
    intro a _
    by_cases ha : a.id = e.id
    · simp [ha]
    · simp [ha]
  · have hany : s.any (fun x => x.id == e.id) = false := by
      rw [List.any_eq_false]
      intro x hx h
      exact hmem (List.mem_map.mpr ⟨x, hx, eq_of_beq h⟩)
    rw [if_neg hmem]
    simp [hany]

/-- The upserted identifier is present afterwards, and old ones persist. -/
lemma upsertOne_ids_mem (s : Store) (e : Entry) :
    e.id ∈ (upsertOne s e).map (fun x => x.id) ∧
    s.map (fun x => x.id) ⊆ (upsertOne s e).map (fun x => x.id) := by
  rw [upsertOne_ids]
  by_cases hmem : e.id ∈ s.map (fun x => x.id)
  · rw [if_pos hmem]
    exact ⟨hmem, fun a ha => ha⟩
  · rw [if_neg hmem]
    exact ⟨List.mem_append_right _ (List.mem_singleton.mpr rfl),
           fun a ha => List.mem_append_left _ ha⟩

/-- Identifiers only grow along a batch. -/
lemma upsertBatch_ids_mono :
    ∀ (b : List Entry) (s : Store),
      s.map (fun x => x.id) ⊆ (upsertBatch s b).map (fun x => x.id) := by
  intro b
  induction b with
  | nil => intro s a ha; exact ha
  | cons e es ih =>
    intro s
    exact fun a ha => ih (upsertOne s e) ((upsertOne_ids_mem s e).2 ha)

/-- Every identifier of the batch is present after the batch is upserted. -/
lemma upsertBatch_ids_mem :
    ∀ (b : List Entry) (s : Store), ∀ e ∈ b,
      e.id ∈ (upsertBatch s b).map (fun x => x.id) := by
  intro b
  induction b with
  | nil => intro s e he; exact absurd he (List.not_mem_nil e)
  | cons x xs ih =>
    intro s e he
    rcases List.mem_cons.mp he with rfl | he
    · exact upsertBatch_ids_mono xs (upsertOne s e) ((upsertOne_ids_mem s e).1)
    · exact ih (upsertOne s x) e he

/-- Upserting a batch whose identifiers are all present leaves the identifier
list unchanged. -/
lemma upsertBatch_ids_of_present :
    ∀ (b : List Entry) (s : Store), (∀ e ∈ b, e.id ∈ s.map (fun x => x.id)) →
      (upsertBatch s b).map (fun x => x.id) = s.map (fun x => x.id) := by
  intro b
  induction b with
  | nil => intro s _; rfl
  | cons x xs ih =>
    intro s hall
    have hx : (upsertOne s x).map (fun e => e.id) = s.map (fun e => e.id) := by
      rw [upsertOne_ids, if_pos (hall x (List.mem_cons_self x xs))]
    calc (upsertBatch (upsertOne s x) xs).map (fun e => e.id)
        = (upsertOne s x).map (fun e => e.id) := by
          refine ih (upsertOne s x) ?_
          intro e he
          rw [hx]
          exact hall e (List.mem_cons_of_mem x he)
      _ = s.map (fun e => e.id) := hx

/-- Upserting preserves identifier uniqueness. -/
lemma upsertOne_nodup (s : Store) (e : Entry)
    (h : (s.map (fun x => x.id)).Nodup) : ((upsertOne s e).map (fun x => x.id)).Nodup := by
  rw [upsertOne_ids]
  by_cases hmem : e.id ∈ s.map (fun x => x.id)
  · rw [if_pos hmem]; exact h
  · rw [if_neg hmem]; simp [List.nodup_append, h, hmem]

/-- Batch upserting preserves identifier uniqueness. -/
lemma upsertBatch_nodup :
    ∀ (b : List Entry) (s : Store), (s.map (fun x => x.id)).Nodup →
      ((upsertBatch s b).map (fun x => x.id)).Nodup := by
  intro b
  induction b with
  | nil => intro s h; exact h
  | cons x xs ih => intro s h; exact ih (upsertOne s x) (upsertOne_nodup s x h)

/-- The store an `index_pages` call leaves behind is the batch upserted into
the previous store (the empty-batch guard changes nothing). -/
lemma index_pages_store (chunkF : String → List String) (s : Store)
    (u d f : String) (pages : List (Int × String)) :
    (index_pages chunkF s u d f pages).1 = upsertBatch s (ingestDocs chunkF u d f pages) := by
  unfold index_pages
  by_cases hb : (ingestDocs chunkF u d f pages).isEmpty
  · rw [List.isEmpty_iff.mp hb]
    simp [upsertBatch]
  · simp [hb]

/-- C7: re-running `index_pages` with identical arguments returns the same
chunk count, queues the same identifiers (the batch is a function of the
arguments alone), and leaves the stored identifier list exactly as the first
call left it — the second call overwrites instead of duplicating — and, when
the store had unique identifiers to begin with, the index still holds exactly
one entry per identifier afterwards. -/
theorem ingestion_idempotent (chunkF : String → List String) (s : Store)
    (u d f : String) (pages : List (Int × String))
    (hnd : (s.map (fun x => x.id)).Nodup) :
    (index_pages chunkF (index_pages chunkF s u d f pages).1 u d f pages).2
        = (index_pages chunkF s u d f pages).2 ∧
    ((index_pages chunkF (index_pages chunkF s u d f pages).1 u d f pages).1.map (fun x => x.id)
        = (index_pages chunkF s u d f pages).1.map (fun x => x.id)) ∧
    ((index_pages chunkF (index_pages chunkF s u d f pages).1 u d f pages).1.map
        (fun x => x.id)).Nodup := by
  refine ⟨rfl, ?_, ?_⟩
  · rw [index_pages_store chunkF (index_pages chunkF s u d f pages).1 u d f pages,
        index_pages_store chunkF s u d f pages]
    refine upsertBatch_ids_of_present _ _ ?_
    intro e he
    exact upsertBatch_ids_mem _ s e he
  · rw [index_pages_store chunkF (index_pages chunkF s u d f pages).1 u d f pages,
        index_pages_store chunkF s u d f pages]
    exact upsertBatch_nodup _ _ (upsertBatch_nodup _ _ hnd)

/-- Witness for C7 on a concrete one-page ingestion into the empty store. -/
theorem ingestion_idempotent_witness :
    (index_pages chunkWhole (index_pages chunkWhole [] "u1" "d1" "f.pdf" [(1, "hello")]).1
        "u1" "d1" "f.pdf" [(1, "hello")]).2
      = (index_pages chunkWhole [] "u1" "d1" "f.pdf" [(1, "hello")]).2 :=
  (ingestion_idempotent chunkWhole [] "u1" "d1" "f.pdf" [(1, "hello")] (by decide)).1

/-! ## Claim C8: deletion completeness -/

/-- C8, evaluating the code: `delete_doc_index` always raises — for every
store, owner and document id, chromadb rejects the unwrapped two-key where
clause before touching the collection, so the call returns the validation
error and never a store, even when nothing matches (not a no-op).  The store
being untouched by the aborted call, a matching chunk (owner u1's document d2
here) is still retrievable afterwards, against deletion completeness. -/
theorem deletion_where_clause_raises :
    (∀ (s : Store) (u d : String),
        delete_doc_index s u d
          = Except.error "Expected where to have exactly one operator") ∧
    (∃ c ∈ retrieve_chunks distZero [sampleEntryD2] "u1" "q" 6, c.doc_id = "d2") := by
  constructor
  · intro s u d
    rfl
  · exact ⟨toChunk (sampleEntryD2, 0), by decide, rfl⟩

/-! ## Claim C9: write-path flush fault tolerance -/

/-- C9: whatever exception the persistence flush raises, `index_pages` returns
normally (never an error value) with the same store and the same chunk count
as a run whose flush succeeds, and that count is the number of chunks queued
in the call. -/
theorem flush_failure_swallowed (chunkF : String → List String) (s : Store)
    (u d f : String) (pages : List (Int × String)) (msg : String) :
    index_pages_run chunkF s u d f pages (Except.error msg)
        = Except.ok (index_pages chunkF s u d f pages) ∧
    index_pages_run chunkF s u d f pages (Except.error msg)
        = index_pages_run chunkF s u d f pages (Except.ok ()) ∧
    (index_pages chunkF s u d f pages).2 = (ingestDocs chunkF u d f pages).length := by
  unfold index_pages_run index_pages
  by_cases hb : (ingestDocs chunkF u d f pages).isEmpty
  · simp [hb]
  · simp [hb]

/-! ## Claim C10: missing-metadata tolerance of retrieval -/

/-- C10: retrieval is total on entries with missing metadata keys; every
retrieved chunk comes from a stored entry, and when that entry's metadata
lacks doc_id or filename the chunk's field is the empty string, while a
missing page stays `none`. -/
theorem retrieval_missing_metadata (dist : String → Entry → ℚ) (s : Store)
    (u q : String) (k : Nat) (c : RagChunk) (hc : c ∈ retrieve_chunks dist s u q k) :
    ∃ e, e ∈ s ∧ c = toChunk (e, dist q e) ∧
      (e.meta.doc_id = none → c.doc_id = "") ∧
      (e.meta.filename = none → c.filename = "") ∧
      (e.meta.page = none → c.page = none) := by
  obtain ⟨e, he, _, rfl⟩ := retrieve_origin dist s u q k c hc
  refine ⟨e, he, rfl, ?_, ?_, ?_⟩
  · intro h0; simp [toChunk, h0]
  · intro h0; simp [toChunk, h0]
  · intro h0; simp [toChunk, h0]

/-- Witness for C10 on an entry whose metadata has only the owner key. -/
theorem retrieval_missing_metadata_witness :
    ∃ e, e ∈ [bareEntry] ∧
      toChunk (bareEntry, distZero "q" bareEntry) = toChunk (e, distZero "q" e) ∧
      (e.meta.doc_id = none → (toChunk (bareEntry, distZero "q" bareEntry)).doc_id = "") ∧
      (e.meta.filename = none → (toChunk (bareEntry, distZero "q" bareEntry)).filename = "") ∧
      (e.meta.page = none → (toChunk (bareEntry, distZero "q" bareEntry)).page = none) :=
  retrieval_missing_metadata distZero [bareEntry] "u2" "q" 3
    (toChunk (bareEntry, distZero "q" bareEntry)) (by decide)

end RagStore
